import Mathlib

set_option linter.unusedVariables false

/-!
Verification development for the account I/O layer: the input-buffer parser
(entrypoint deserialize), the borrow-tracked account views, the
discriminator-tagged zero-copy typed-cast layer (ser/zc), and the bump
allocator.  Machine integers are modelled as `Nat`; bytes are `Nat` values
that conformant buffers keep below 256; memory is a function `Nat → Nat`
from offsets to byte values.
-/

/-- Word size alignment used by the input buffer (BPF alignment of u128 is 8). -/
def BPF_ALIGN_OF_U128 : Nat := 8

/-- Marker byte for a non-duplicated serialized account (`u8::MAX`). -/
def NON_DUP_MARKER : Nat := 255

/-- Maximum number of accounts a transaction may process (`u8::MAX - 1`). -/
def MAX_TX_ACCOUNTS : Nat := 254

/-- Maximum heap length in bytes (`256 * 1024`). -/
def MAX_HEAP_LENGTH : Nat := 262144

/-- Size of the static part of a serialized account record after its first 8
bytes: the remaining 80 header bytes plus the 10240-byte realloc headroom
(`size_of::<RuntimeAccount>() + MAX_PERMITTED_DATA_INCREASE - 8`).  The code
walks a primary record as `8 + STATIC_ACCOUNT_DATA + data_len`, aligned. -/
def STATIC_ACCOUNT_DATA : Nat := 10328

/-- Round an offset up to the next multiple of 8; models
`(ptr + 7) & !(7)` on 8-aligned machine addresses. -/
def align8 (n : Nat) : Nat := (n + 7) / 8 * 8

/-- Little-endian byte decomposition: the `k` low-order base-256 digits of `n`. -/
def leBytes : Nat → Nat → List Nat
  | 0, _ => []
  | k + 1, n => n % 256 :: leBytes k (n / 256)

/-- Little-endian encoding of a `u64` as 8 bytes. -/
def u64le (n : Nat) : List Nat := leBytes 8 n

/-- Assemble a number from little-endian bytes. -/
def readLE : List Nat → Nat
  | [] => 0
  | b :: bs => b + 256 * readLE bs

/-- Read the `u64` word stored little-endian at offset `off` of memory `m`. -/
def readU64 (m : Nat → Nat) (off : Nat) : Nat :=
  readLE ((List.range 8).map (fun i => m (off + i)))

/-- Read `k` consecutive bytes starting at offset `off`. -/
def readBytes (m : Nat → Nat) (off k : Nat) : List Nat :=
  (List.range k).map (fun i => m (off + i))

theorem leBytes_length (k n : Nat) : (leBytes k n).length = k := by
  induction k generalizing n with
  | zero => rfl
  | succ k ih => simp [leBytes, ih]

theorem u64le_length (n : Nat) : (u64le n).length = 8 := leBytes_length 8 n

theorem readLE_leBytes (k n : Nat) : readLE (leBytes k n) = n % 256 ^ k := by
  induction k generalizing n with
  | zero => simp [leBytes, readLE, Nat.mod_one]
  | succ k ih =>
    have hmod : n % (256 * 256 ^ k) = 256 * (n / 256 % 256 ^ k) + n % 256 := by
      have h1 := Nat.div_add_mod (n % (256 * 256 ^ k)) 256
      have h2 : n % (256 * 256 ^ k) % 256 = n % 256 :=
        Nat.mod_mod_of_dvd n ⟨256 ^ k, rfl⟩
      have h3 : n % (256 * 256 ^ k) / 256 = n / 256 % 256 ^ k := by
        rw [Nat.mod_mul_right_div_self]
      omega
    simp only [leBytes, readLE, ih]
    rw [pow_succ]
    rw [mul_comm (256 ^ k) 256, hmod]
    omega

/-- Model of the error surface: the `ProgramError` values the translated code
returns, plus `accountAlreadyInUse` for the system-program failure on an
already-allocated create target. -/
inductive ProgramError
  | invalidAccountOwner
  | invalidAccountData
  | invalidInstructionData
  | notEnoughAccountKeys
  | accountBorrowFailed
  | incorrectProgramId
  | accountAlreadyInUse
  | custom (code : Nat)
deriving DecidableEq

/-- Borrow State of one physical account: Unborrowed, Shared(count) or
Exclusive.  Modelled from the spec: the borrow-tracking cell lives in the
external `solana_account_view` crate, absent from this tree. -/
inductive BorrowState
  | unborrowed
  | shared (n : Nat)
  | exclusive
deriving DecidableEq

/-- Modelled from the spec: `try_borrow` fails (BorrowConflict) only if an
Exclusive borrow is outstanding; otherwise it increments the Shared count. -/
def tryBorrowCell : BorrowState → Except ProgramError BorrowState
  | .exclusive => .error .accountBorrowFailed
  | .unborrowed => .ok (.shared 1)
  | .shared n => .ok (.shared (n + 1))

/-- Modelled from the spec: `try_borrow_mut` fails (BorrowConflict) if any
Shared or Exclusive borrow is outstanding. -/
def tryBorrowMutCell : BorrowState → Except ProgramError BorrowState
  | .unborrowed => .ok .exclusive
  | _ => .error .accountBorrowFailed

/-- Static data of an account type `T` in the typed-cast layer: `T::OWNER`,
`T::DISCRIMINATOR` (8 bytes) and `size_of::<T>()`. -/
structure ZcType where
  owner : List Nat
  disc : List Nat
  size : Nat

/-- The exact on-chain length `T::DISCRIMINATED_LEN = 8 + size_of::<T>()`. -/
def ZcType.discriminatedLen (t : ZcType) : Nat := 8 + t.size

/-- Observable state of one account view: owner address, data bytes and the
shared borrow cell it references. -/
structure AccountState where
  owner : List Nat
  data : List Nat
  borrow : BorrowState
deriving DecidableEq

/-- Translation of `try_deserialize_zc` (crates/ser/src/zc.rs): check owner,
then `try_borrow`, then exact data length, then the 8-byte discriminator;
on success return the payload bytes `data[8..T::DISCRIMINATED_LEN]`.  The
returned `Ref` guard bookkeeping is omitted: the claims quantify over the
borrow state at call time. -/
def tryDeserializeZc (t : ZcType) (v : AccountState) : Except ProgramError (List Nat) :=
  if v.owner ≠ t.owner then .error .invalidAccountOwner
  else
    match tryBorrowCell v.borrow with
    | .error e => .error e
    | .ok _ =>
      if v.data.length ≠ t.discriminatedLen then .error .invalidAccountData
      else if v.data.take 8 ≠ t.disc then .error .invalidAccountData
      else .ok ((v.data.drop 8).take t.size)

/-- Collaborating accounts handed to `try_initialize_zc`: the requested owner
program id and the system program's address (the payer is not consulted by
the logic modelled here). -/
structure InitAccounts where
  ownerProgramId : List Nat
  systemProgramAddr : List Nat

/-- Address of the system program (all-zero bytes). -/
def systemProgramId : List Nat := List.replicate 32 0

/-- Arguments of one invocation of the account-creation collaborator. -/
structure CreateRequest where
  space : Nat
  owner : List Nat
deriving DecidableEq

/-- Modelled from the spec: the external account-creation primitive (system
program `create_account`, invoked via CPI) fails if the target already has
allocated data, otherwise allocates `space` zeroed bytes owned by `owner`.
The primitive itself is host code absent from this tree; only the CPI
builder (crates/system-program/src/instructions/create_account.rs) is here. -/
def createAccount (target : AccountState) (owner : List Nat) (space : Nat) :
    Except ProgramError AccountState :=
  if target.data.length ≠ 0 then .error .accountAlreadyInUse
  else .ok { owner := owner, data := List.replicate space 0, borrow := target.borrow }

/-- Translation of `try_initialize_zc` (crates/ser/src/zc.rs): build the CPI
context (which checks the system program id), invoke `create_account` with
`T::DISCRIMINATED_LEN` bytes and the caller-supplied owner program id, then
`try_borrow_mut` the target, write `T::DISCRIMINATOR` into bytes `[0..8]`
and return the request made, the new account state and the payload
reference `data[8..]`. -/
def tryInitializeZc (t : ZcType) (target : AccountState) (init : InitAccounts) :
    Except ProgramError (CreateRequest × AccountState × List Nat) :=
  if init.systemProgramAddr ≠ systemProgramId then .error .incorrectProgramId
  else
    match createAccount target init.ownerProgramId t.discriminatedLen with
    | .error e => .error e
    | .ok created =>
      match tryBorrowMutCell created.borrow with
      | .error e => .error e
      | .ok bs =>
        let newData := t.disc ++ created.data.drop 8
        .ok ({ space := t.discriminatedLen, owner := init.ownerProgramId },
             { owner := created.owner, data := newData, borrow := bs },
             newData.drop 8)

/-- Apply a sequence of single-byte writes (index, value) to a payload. -/
def applyWrites (ws : List (Nat × Nat)) (p : List Nat) : List Nat :=
  ws.foldl (fun d w => d.set w.1 w.2) p

/-- Writes through the typed payload reference: payload index `i` is data
byte `8 + i` of the account. -/
def writePayload (s : AccountState) (ws : List (Nat × Nat)) : AccountState :=
  { s with data := ws.foldl (fun d w => d.set (8 + w.1) w.2) s.data }

/-- Release the exclusive guard returned by `try_initialize_zc`. -/
def dropGuard (s : AccountState) : AccountState := { s with borrow := .unborrowed }

/-- Round trip of the typed-cast layer: `try_initialize_zc` on a fresh
(zero-length, unborrowed) account, writes through the returned payload
reference, guard release, then `try_deserialize_zc` on the same account. -/
def initWriteThenDeserialize (t : ZcType) (o : List Nat) (ws : List (Nat × Nat)) :
    Except ProgramError (List Nat) :=
  match tryInitializeZc t { owner := systemProgramId, data := [], borrow := .unborrowed }
      { ownerProgramId := o, systemProgramAddr := systemProgramId } with
  | .error e => .error e
  | .ok (_, s1, _) => tryDeserializeZc t (dropGuard (writePayload s1 ws))

instance (ε α : Type) [DecidableEq ε] [DecidableEq α] : DecidableEq (Except ε α)
  | .error a, .error b =>
    if h : a = b then isTrue (by rw [h]) else isFalse (fun c => by cases c; exact h rfl)
  | .error _, .ok _ => isFalse (fun h => by cases h)
  | .ok _, .error _ => isFalse (fun h => by cases h)
  | .ok a, .ok b =>
    if h : a = b then isTrue (by rw [h]) else isFalse (fun c => by cases c; exact h rfl)

theorem applyWrites_cons (w : Nat × Nat) (ws : List (Nat × Nat)) (p : List Nat) :
    applyWrites (w :: ws) p = applyWrites ws (p.set w.1 w.2) := rfl

theorem applyWrites_length (ws : List (Nat × Nat)) (p : List Nat) :
    (applyWrites ws p).length = p.length := by
  induction ws generalizing p with
  | nil => rfl
  | cons w ws ih => rw [applyWrites_cons, ih, List.length_set]

theorem getD_set_ne (l : List Nat) (i j v : Nat) (h : i ≠ j) :
    (l.set i v).getD j 0 = l.getD j 0 := by
  rw [List.getD_eq_getElem?_getD, List.getD_eq_getElem?_getD, List.getElem?_set_ne h]

theorem applyWrites_getD_unwritten (ws : List (Nat × Nat)) (p : List Nat) (j : Nat)
    (hj : ∀ w ∈ ws, w.1 ≠ j) :
    (applyWrites ws p).getD j 0 = p.getD j 0 := by
  induction ws generalizing p with
  | nil => rfl
  | cons w ws ih =>
    have h1 : (applyWrites (w :: ws) p) = applyWrites ws (p.set w.1 w.2) := rfl
    rw [h1, ih _ (fun x hx => hj x (List.mem_cons_of_mem w hx)),
      getD_set_ne _ _ _ _ (hj w (List.mem_cons_self w ws))]

theorem getD_replicate_zero (sz j : Nat) : (List.replicate sz (0 : Nat)).getD j 0 = 0 := by
  rcases Nat.lt_or_ge j sz with h | h
  · rw [List.getD_eq_getElem _ _ (by simpa using h), List.getElem_replicate]
  · rw [List.getD_eq_default _ _ (by simpa using h)]

theorem foldl_set_shift (ds : List Nat) (hds : ds.length = 8) (ws : List (Nat × Nat))
    (p : List Nat) :
    ws.foldl (fun d w => d.set (8 + w.1) w.2) (ds ++ p) = ds ++ applyWrites ws p := by
  induction ws generalizing p with
  | nil => rfl
  | cons w ws ih =>
    have hset : (ds ++ p).set (8 + w.1) w.2 = ds ++ p.set w.1 w.2 := by
      rw [List.set_append, if_neg (by omega), hds]
      congr 2
      omega
    have h1 : applyWrites (w :: ws) p = applyWrites ws (p.set w.1 w.2) := rfl
    rw [List.foldl_cons, hset, ih (p.set w.1 w.2), h1]

/-- C1: with owner, length and discriminator all wrong, `try_deserialize_zc`
reports the owner mismatch (`InvalidAccountOwner`), because the owner check
comes first — before the borrow, the length and the discriminator checks. -/
theorem tryDeserializeZc_owner_checked_first (t : ZcType) (v : AccountState)
    (ho : v.owner ≠ t.owner) (hl : v.data.length ≠ t.discriminatedLen)
    (hd : v.data.take 8 ≠ t.disc) :
    tryDeserializeZc t v = .error .invalidAccountOwner := by
  simp [tryDeserializeZc, ho]

theorem tryDeserializeZc_owner_checked_first_witness :
    (List.replicate 32 3 ≠ List.replicate 32 1) ∧
    ([9].length ≠ ZcType.discriminatedLen ⟨List.replicate 32 1, List.replicate 8 2, 4⟩) ∧
    ([9].take 8 ≠ List.replicate 8 2) ∧
    tryDeserializeZc ⟨List.replicate 32 1, List.replicate 8 2, 4⟩
        ⟨List.replicate 32 3, [9], .exclusive⟩ = .error .invalidAccountOwner :=
  ⟨by decide, by decide, by decide,
    tryDeserializeZc_owner_checked_first _ _ (by decide) (by decide) (by decide)⟩

/-- C2 counterexample: the discriminator-mismatch error returned by
`try_deserialize_zc` is `ProgramError::InvalidAccountData` — exactly the
same error value as the data-length mismatch, so it is not distinguishable
from the length error; moreover, with an outstanding exclusive borrow the
same inputs yield the borrow error instead of any discriminator error. -/
theorem tryDeserializeZc_disc_error_not_distinct :
    tryDeserializeZc ⟨List.replicate 32 1, List.replicate 8 7, 4⟩
        ⟨List.replicate 32 1, List.replicate 12 0, .unborrowed⟩
      = .error .invalidAccountData ∧
    tryDeserializeZc ⟨List.replicate 32 1, List.replicate 8 7, 4⟩
        ⟨List.replicate 32 1, [], .unborrowed⟩
      = .error .invalidAccountData ∧
    tryDeserializeZc ⟨List.replicate 32 1, List.replicate 8 7, 4⟩
        ⟨List.replicate 32 1, List.replicate 12 0, .exclusive⟩
      = .error .accountBorrowFailed := by
  decide

/-- C2 (amended): with correct owner, correct length, a discriminator
mismatch and no outstanding exclusive borrow, `try_deserialize_zc` returns
`ProgramError::InvalidAccountData` — the same error value as a data-length
mismatch, distinct from the owner-mismatch error — regardless of the
payload bit pattern. -/
theorem tryDeserializeZc_disc_mismatch (t : ZcType) (v : AccountState)
    (ho : v.owner = t.owner) (hb : v.borrow ≠ .exclusive)
    (hl : v.data.length = t.discriminatedLen) (hd : v.data.take 8 ≠ t.disc) :
    tryDeserializeZc t v = .error .invalidAccountData ∧
    tryDeserializeZc t v ≠ .error .invalidAccountOwner := by
  cases hbv : v.borrow with
  | exclusive => exact absurd hbv hb
  | unborrowed => simp [tryDeserializeZc, ho, hbv, tryBorrowCell, hl, hd]
  | shared n => simp [tryDeserializeZc, ho, hbv, tryBorrowCell, hl, hd]

theorem tryDeserializeZc_disc_mismatch_witness :
    (List.replicate 32 1 = List.replicate 32 1) ∧
    (BorrowState.shared 1 ≠ BorrowState.exclusive) ∧
    ((List.replicate 12 9).length = ZcType.discriminatedLen ⟨List.replicate 32 1, List.replicate 8 7, 4⟩) ∧
    ((List.replicate 12 9).take 8 ≠ List.replicate 8 7) ∧
    (tryDeserializeZc ⟨List.replicate 32 1, List.replicate 8 7, 4⟩
        ⟨List.replicate 32 1, List.replicate 12 9, .shared 1⟩ = .error .invalidAccountData ∧
     tryDeserializeZc ⟨List.replicate 32 1, List.replicate 8 7, 4⟩
        ⟨List.replicate 32 1, List.replicate 12 9, .shared 1⟩ ≠ .error .invalidAccountOwner) :=
  ⟨by decide, by decide, by decide, by decide,
    tryDeserializeZc_disc_mismatch _ _ (by decide) (by decide) (by decide) (by decide)⟩

theorem drop_replicate_eight (sz : Nat) :
    (List.replicate (8 + sz) (0 : Nat)).drop 8 = List.replicate sz 0 := by
  rw [List.drop_replicate]
  congr 1
  omega

/-- C4 counterexample: `try_initialize_zc` succeeds while requesting
ownership by the caller-supplied `owner_program_id`, which here differs
from `T::OWNER` — the create request's owner is not `T::OWNER`. -/
theorem tryInitializeZc_owner_counterexample :
    tryInitializeZc ⟨List.replicate 32 1, List.replicate 8 7, 2⟩
        ⟨List.replicate 32 0, [], .unborrowed⟩
        ⟨List.replicate 32 2, List.replicate 32 0⟩
      = .ok ({ space := 10, owner := List.replicate 32 2 },
             { owner := List.replicate 32 2,
               data := List.replicate 8 7 ++ List.replicate 2 0,
               borrow := .exclusive },
             List.replicate 2 0) ∧
    (List.replicate 32 2 : List Nat) ≠ List.replicate 32 1 := by
  decide

/-- C4 (amended): a successful `try_initialize_zc` invokes the create-account
collaborator requesting exactly `8 + size_of::<T>()` bytes and ownership by
the caller-supplied `owner_program_id` (not `T::OWNER`), then writes
`T::DISCRIMINATOR` into bytes `[0..8]` and returns an exclusive,
zero-initialized typed reference to bytes `[8..]`; success depends only on
the system-program id, the collaborator's already-allocated test and the
borrow state — no separate already-initialized check exists in this layer. -/
theorem tryInitializeZc_requests_caller_owner (t : ZcType) (target : AccountState)
    (init : InitAccounts) (hdisc : t.disc.length = 8) :
    ((tryInitializeZc t target init).isOk = true ↔
      (init.systemProgramAddr = systemProgramId ∧ target.data = [] ∧
        target.borrow = .unborrowed)) ∧
    (init.systemProgramAddr = systemProgramId → target.data = [] →
      target.borrow = .unborrowed →
      tryInitializeZc t target init =
        .ok ({ space := 8 + t.size, owner := init.ownerProgramId },
             { owner := init.ownerProgramId,
               data := t.disc ++ List.replicate t.size 0,
               borrow := .exclusive },
             List.replicate t.size 0)) := by
  have hdrop := drop_replicate_eight t.size
  have hok : init.systemProgramAddr = systemProgramId → target.data = [] →
      target.borrow = .unborrowed →
      tryInitializeZc t target init =
        .ok ({ space := 8 + t.size, owner := init.ownerProgramId },
             { owner := init.ownerProgramId,
               data := t.disc ++ List.replicate t.size 0,
               borrow := .exclusive },
             List.replicate t.size 0) := by
    intro h1 h2 h3
    have hc : createAccount target init.ownerProgramId t.discriminatedLen =
        .ok { owner := init.ownerProgramId, data := List.replicate (8 + t.size) 0,
              borrow := .unborrowed } := by
      simp [createAccount, h2, h3, ZcType.discriminatedLen]
    have hdl : (t.disc ++ List.replicate t.size 0).drop 8 = List.replicate t.size 0 := by
      rw [← hdisc, List.drop_left]
    unfold tryInitializeZc
    rw [if_neg (by simp [h1]), hc]
    dsimp only [tryBorrowMutCell, ZcType.discriminatedLen]
    rw [hdrop, hdl]
  refine ⟨?_, hok⟩
  by_cases h1 : init.systemProgramAddr = systemProgramId
  · by_cases h2 : target.data = []
    · cases h3 : target.borrow with
      | unborrowed =>
        rw [hok h1 h2 h3]
        simp [Except.isOk, Except.toBool, h1, h2, h3]
      | shared n =>
        simp [tryInitializeZc, h1, createAccount, h2, h3, tryBorrowMutCell,
          Except.isOk, Except.toBool]
      | exclusive =>
        simp [tryInitializeZc, h1, createAccount, h2, h3, tryBorrowMutCell,
          Except.isOk, Except.toBool]
    · have hlen : target.data.length ≠ 0 := by
        intro hc
        exact h2 (List.length_eq_zero.mp hc)
      simp [tryInitializeZc, h1, createAccount, hlen, Except.isOk, Except.toBool, h2]
  · simp [tryInitializeZc, h1, Except.isOk, Except.toBool]

theorem tryInitializeZc_requests_caller_owner_witness :
    ((List.replicate 8 7 : List Nat).length = 8) ∧
    ((tryInitializeZc ⟨List.replicate 32 1, List.replicate 8 7, 2⟩
        ⟨List.replicate 32 0, [], .unborrowed⟩
        ⟨List.replicate 32 5, List.replicate 32 0⟩).isOk = true ↔
      ((List.replicate 32 0 : List Nat) = systemProgramId ∧ ([] : List Nat) = [] ∧
        BorrowState.unborrowed = .unborrowed)) ∧
    ((List.replicate 32 0 : List Nat) = systemProgramId → ([] : List Nat) = [] →
      BorrowState.unborrowed = .unborrowed →
      tryInitializeZc ⟨List.replicate 32 1, List.replicate 8 7, 2⟩
          ⟨List.replicate 32 0, [], .unborrowed⟩
          ⟨List.replicate 32 5, List.replicate 32 0⟩ =
        .ok ({ space := 8 + 2, owner := List.replicate 32 5 },
             { owner := List.replicate 32 5,
               data := List.replicate 8 7 ++ List.replicate 2 0,
               borrow := .exclusive },
             List.replicate 2 0)) := by
  have h := tryInitializeZc_requests_caller_owner
    ⟨List.replicate 32 1, List.replicate 8 7, 2⟩
    ⟨List.replicate 32 0, [], .unborrowed⟩
    ⟨List.replicate 32 5, List.replicate 32 0⟩ (by decide)
  exact ⟨by decide, h.1, h.2⟩

/-- C5 counterexample: `try_initialize_zc` with a caller-supplied owner
different from `T::OWNER` succeeds, but the subsequent `try_deserialize_zc`
of the very same account fails with the owner-mismatch error, so the
round trip does not hold for every successful initialization. -/
theorem initWriteThenDeserialize_wrong_owner_counterexample :
    tryInitializeZc ⟨List.replicate 32 1, List.replicate 8 7, 2⟩
        ⟨List.replicate 32 0, [], .unborrowed⟩
        ⟨List.replicate 32 2, List.replicate 32 0⟩
      = .ok ({ space := 10, owner := List.replicate 32 2 },
             { owner := List.replicate 32 2,
               data := List.replicate 8 7 ++ List.replicate 2 0,
               borrow := .exclusive },
             List.replicate 2 0) ∧
    initWriteThenDeserialize ⟨List.replicate 32 1, List.replicate 8 7, 2⟩
        (List.replicate 32 2) [] = .error .invalidAccountOwner := by
  decide

/-- C5 (amended): when the requested owner equals `T::OWNER` and the
exclusive guard is released after the writes, `try_initialize_zc` followed
by writes through the returned typed reference and `try_deserialize_zc` on
the same account succeeds and yields the payload bit-identical to what was
written, with untouched payload bytes reading as zero. -/
theorem initWriteThenDeserialize_roundtrip (t : ZcType) (ws : List (Nat × Nat))
    (hdisc : t.disc.length = 8) :
    initWriteThenDeserialize t t.owner ws
      = .ok (applyWrites ws (List.replicate t.size 0)) ∧
    (∀ j, (∀ w ∈ ws, w.1 ≠ j) →
      (applyWrites ws (List.replicate t.size 0)).getD j 0 = 0) := by
  constructor
  · have hinit := (tryInitializeZc_requests_caller_owner t
      { owner := systemProgramId, data := [], borrow := .unborrowed }
      { ownerProgramId := t.owner, systemProgramAddr := systemProgramId } hdisc).2
      rfl rfl rfl
    rw [initWriteThenDeserialize, hinit]
    dsimp only
    have hw : writePayload
        { owner := t.owner, data := t.disc ++ List.replicate t.size 0,
          borrow := .exclusive } ws =
        { owner := t.owner,
          data := t.disc ++ applyWrites ws (List.replicate t.size 0),
          borrow := .exclusive } := by
      rw [writePayload, foldl_set_shift t.disc hdisc]
    rw [hw]
    have hlen : (t.disc ++ applyWrites ws (List.replicate t.size 0)).length
        = t.discriminatedLen := by
      rw [List.length_append, applyWrites_length, List.length_replicate, hdisc,
        ZcType.discriminatedLen]
    have htake : (t.disc ++ applyWrites ws (List.replicate t.size 0)).take 8 = t.disc := by
      conv in List.take 8 => rw [← hdisc]
      exact List.take_left _ _
    have hdrop2 : (t.disc ++ applyWrites ws (List.replicate t.size 0)).drop 8
        = applyWrites ws (List.replicate t.size 0) := by
      conv in List.drop 8 => rw [← hdisc]
      exact List.drop_left _ _
    have hq : (applyWrites ws (List.replicate t.size 0)).take t.size
        = applyWrites ws (List.replicate t.size 0) := by
      conv in List.take t.size => rw [← show (applyWrites ws (List.replicate t.size 0)).length = t.size by
        rw [applyWrites_length, List.length_replicate]]
      exact List.take_length _
    simp [tryDeserializeZc, dropGuard, tryBorrowCell, hlen, htake, hdrop2, hq]
  · intro j hj
    rw [applyWrites_getD_unwritten ws _ j hj, getD_replicate_zero]

theorem initWriteThenDeserialize_roundtrip_witness :
    ((List.replicate 8 7 : List Nat).length = 8) ∧
    initWriteThenDeserialize ⟨List.replicate 32 1, List.replicate 8 7, 2⟩
        (ZcType.owner ⟨List.replicate 32 1, List.replicate 8 7, 2⟩) [(0, 5)]
      = .ok (applyWrites [(0, 5)] (List.replicate 2 0)) ∧
    (applyWrites [(0, 5)] (List.replicate 2 0)).getD 1 0 = 0 := by
  have h := initWriteThenDeserialize_roundtrip
    ⟨List.replicate 32 1, List.replicate 8 7, 2⟩ [(0, 5)] (by decide)
  exact ⟨by decide, h.1, h.2 1 (by decide)⟩

/-- Fields of one primary serialized account record, per the wire format:
flag bytes, 32-byte address, 32-byte owner, balance, variable data and the
trailing rent-epoch slot. -/
structure PrimAcct where
  signer : Nat
  writable : Nat
  exec : Nat
  addr : List Nat
  owner : List Nat
  lamports : Nat
  data : List Nat
  rentEpoch : Nat

/-- One account record of the input buffer: either a primary record or a
duplicate marker holding the index of an earlier record. -/
inductive WireRec
  | primary (a : PrimAcct)
  | dup (idx : Nat)

instance : Inhabited WireRec := ⟨.dup 0⟩

/-- Selector for primary records. -/
def isPrim : WireRec → Bool
  | .primary _ => true
  | .dup _ => false

/-- Number of bytes one record occupies in the input buffer: 8 for a
duplicate marker; for a primary record the 88-byte header, the data, the
10240-byte realloc headroom, padding to 8-byte alignment and the trailing
8-byte rent-epoch slot. -/
def recSize : WireRec → Nat
  | .dup _ => 8
  | .primary a => 10336 + a.data.length + (8 - a.data.length % 8) % 8

/-- Modelled from the spec: the host serializer's byte layout of one record
(wire format of section 4.1).  A duplicate marker is its index byte plus 7
padding bytes; a primary record is the marker byte 255, three flag bytes,
4 reserved bytes, address, owner, balance, data length, data, realloc
headroom, alignment padding, and the rent-epoch slot. -/
def serializeRec : WireRec → List Nat
  | .dup idx => idx :: List.replicate 7 0
  | .primary a =>
    [255, a.signer, a.writable, a.exec] ++ List.replicate 4 0 ++ a.addr ++ a.owner
      ++ u64le a.lamports ++ u64le a.data.length ++ a.data ++ List.replicate 10240 0
      ++ List.replicate ((8 - a.data.length % 8) % 8) 0 ++ u64le a.rentEpoch

/-- Abstract content of one input buffer. -/
structure Buffer where
  recs : List WireRec
  instr : List Nat
  progId : List Nat

/-- Modelled from the spec: the host serializer's byte layout of the whole
input buffer: `[u64 account_count][records][u64 instr_len][instr][program_id]`. -/
def serialize (b : Buffer) : List Nat :=
  u64le b.recs.length ++ (b.recs.map serializeRec).flatten
    ++ u64le b.instr.length ++ b.instr ++ b.progId

/-- Byte-addressed view of a serialized buffer (reads out of range give 0). -/
def memOf (b : Buffer) (i : Nat) : Nat := (serialize b).getD i 0

/-- Conformance of a primary record: 32-byte addresses and a representable
data length (duplicate markers are unconstrained here). -/
def primWF : WireRec → Prop
  | .primary a => a.addr.length = 32 ∧ a.owner.length = 32 ∧ a.data.length < 2 ^ 64
  | .dup _ => True

instance (r : WireRec) : Decidable (primWF r) := by
  cases r
  · exact inferInstanceAs (Decidable (_ ∧ _))
  · exact inferInstanceAs (Decidable True)

/-- Conformance of a duplicate marker at position `i`: it holds the index of
an earlier record and stays below the non-duplicate marker 255. -/
def dupWF : Nat → WireRec → Prop
  | _, .primary _ => True
  | i, .dup idx => idx < 255 ∧ idx < i

instance (i : Nat) (r : WireRec) : Decidable (dupWF i r) := by
  cases r
  · exact inferInstanceAs (Decidable True)
  · exact inferInstanceAs (Decidable (_ ∧ _))

/-- Conformance of a buffer produced by the host serializer: at most
`MAX_TX_ACCOUNTS` records, the first record primary, every record
conformant, a representable instruction length and a 32-byte program id. -/
def bufWF (b : Buffer) : Prop :=
  b.recs.length ≤ 254 ∧ b.instr.length < 2 ^ 64 ∧ b.progId.length = 32 ∧
    (∀ r ∈ b.recs, primWF r) ∧
    (∀ i, i < b.recs.length → dupWF i (b.recs.getD i default)) ∧
    (0 < b.recs.length → isPrim (b.recs.getD 0 default) = true)

instance (b : Buffer) : Decidable (bufWF b) := by
  unfold bufWF
  infer_instance

/-- Cursor and initialized account views during the entrypoint parse. -/
structure PState where
  cursor : Nat
  views : List Nat
deriving DecidableEq

/-- Translation of one `process_n_accounts!` account step
(crates/entrypoint/src/lib.rs): read the marker byte; a duplicate clones
the view at the stored index (`clone_account_view`); a primary record
yields a view at the current cursor and the cursor advances over header,
data and padding. -/
def step (m : Nat → Nat) (s : PState) : PState :=
  if m s.cursor ≠ 255 then
    { cursor := s.cursor + 8, views := s.views ++ [s.views.getD (m s.cursor) 0] }
  else
    { cursor := align8 (s.cursor + 8 + 10328 + readU64 m (s.cursor + 80)),
      views := s.views ++ [s.cursor] }

/-- Translation of the skip loop body of `deserialize`: same cursor walk as
`step` but without materializing a view. -/
def skipStep (m : Nat → Nat) (s : PState) : PState :=
  if m s.cursor ≠ 255 then { s with cursor := s.cursor + 8 }
  else
    { s with cursor := align8 (s.cursor + 8 + 10328 + readU64 m (s.cursor + 80)) }

/-- Iterate a parser step `k` times. -/
def iter (f : PState → PState) : Nat → PState → PState
  | 0, s => s
  | k + 1, s => iter f k (f s)

/-- Translation of the batched account loop of `deserialize`: while more
than five accounts remain process five at a time, then a switch on the 1–5
remainder processes the tail (the count includes the already-processed
first account).  The impossible fall-through arm
(`unreachable_unchecked`) is modelled as `none`. -/
def batchLoop (m : Nat → Nat) : Nat → PState → Option PState
  | 0, _ => none
  | 1, s => some s
  | 2, s => some (step m s)
  | 3, s => some (iter (step m) 2 s)
  | 4, s => some (iter (step m) 3 s)
  | 5, s => some (iter (step m) 4 s)
  | t + 6, s => batchLoop m (t + 1) (iter (step m) 5 s)

/-- Observable results of the entrypoint parse: program id, number of
materialized views, the views, the instruction-data slice and the buffer
offset at which the instruction length was read. -/
structure ParseOut where
  progId : List Nat
  count : Nat
  views : List Nat
  instr : List Nat
  instrOffset : Nat
deriving DecidableEq

/-- Translation of the tail of `deserialize`: read the instruction length,
the instruction bytes and the 32-byte program id at the final cursor. -/
def finish (m : Nat → Nat) (s : PState) (n : Nat) : ParseOut :=
  let ilen := readU64 m s.cursor
  { progId := readBytes m (s.cursor + 8 + ilen) 32,
    count := n, views := s.views,
    instr := readBytes m (s.cursor + 8) ilen,
    instrOffset := s.cursor }

/-- Translation of `deserialize` (crates/entrypoint/src/lib.rs): read the
account count; process the first account unconditionally as primary; cap
the number of processed accounts at `maxAccounts` (when below
`MAX_TX_ACCOUNTS`); fast-path a remaining count of exactly one account,
otherwise run the batched loop; skip the excess accounts; then read the
instruction data and program id. -/
def deserialize (maxAccounts : Nat) (m : Nat → Nat) : Option ParseOut :=
  let count := readU64 m 0
  if count = 0 then some (finish m ⟨8, []⟩ 0)
  else
    let d0 := readU64 m (8 + 80)
    let s0 : PState := ⟨align8 (8 + 8 + 10328 + d0), [8]⟩
    if 1 < count then
      let tpp := if maxAccounts < 254 then min count maxAccounts else count
      let toSkip := count - tpp
      match (if tpp = 2 then some (step m s0) else batchLoop m tpp s0) with
      | none => none
      | some s1 =>
        let s2 := if maxAccounts < 254 then iter (skipStep m) toSkip s1 else s1
        some (finish m s2 tpp)
    else some (finish m s0 1)

/-- Follows the spec's words: the naive one-account-at-a-time walk of the
same buffer — every record handled individually in order, the first
`min count maxAccounts` materialized, the rest skipped, then the tail
read.  Reference semantics for the batched refinement claim. -/
def deserializeNaive (maxAccounts : Nat) (m : Nat → Nat) : ParseOut :=
  let count := readU64 m 0
  let p := min count maxAccounts
  let s1 := iter (step m) p ⟨8, []⟩
  let s2 := iter (skipStep m) (count - p) s1
  finish m s2 p

/-- Buffer offset of record `i` in the wire layout. -/
def offs (recs : List WireRec) (i : Nat) : Nat :=
  8 + ((recs.take i).map recSize).sum

/-- Views the parse is expected to produce for the first `n` records: a
primary record yields a view at its own offset, a duplicate marker the view
of the record it points at. -/
def specViews (recs : List WireRec) : Nat → List Nat
  | 0 => []
  | n + 1 =>
    let vs := specViews recs n
    vs ++ [match recs.getD n default with
           | .primary _ => offs recs n
           | .dup idx => vs.getD idx 0]

theorem align8_eq (n : Nat) : align8 n = n + (8 - n % 8) % 8 := by
  unfold align8
  omega

theorem recSize_mod8 (r : WireRec) : recSize r % 8 = 0 := by
  cases r with
  | dup idx => simp [recSize]
  | primary a => simp only [recSize]; omega

theorem serializeRec_length (r : WireRec) (h : primWF r) :
    (serializeRec r).length = recSize r := by
  cases r with
  | dup idx => simp [serializeRec, recSize]
  | primary a =>
    obtain ⟨h1, h2, _⟩ := h
    simp only [serializeRec, recSize, List.length_append, List.length_cons,
      List.length_replicate, List.length_nil, u64le_length, h1, h2]
    omega

theorem sum_map_recSize_mod8 (l : List WireRec) : ((l.map recSize).sum) % 8 = 0 := by
  induction l with
  | nil => rfl
  | cons r l ih =>
    simp only [List.map_cons, List.sum_cons]
    have := recSize_mod8 r
    omega

theorem offs_zero (recs : List WireRec) : offs recs 0 = 8 := rfl

theorem offs_mod8 (recs : List WireRec) (i : Nat) : offs recs i % 8 = 0 := by
  unfold offs
  have := sum_map_recSize_mod8 (recs.take i)
  omega

theorem offs_succ (recs : List WireRec) (i : Nat) (hi : i < recs.length) :
    offs recs (i + 1) = offs recs i + recSize (recs.getD i default) := by
  unfold offs
  have h : recs.take (i + 1) = recs.take i ++ [recs.getD i default] := by
    rw [List.take_succ, List.getElem?_eq_getElem hi]
    simp [List.getD_eq_getElem?_getD, List.getElem?_eq_getElem hi]
  rw [h, List.map_append, List.sum_append]
  simp [Nat.add_assoc]

theorem getD_chunk (xs ys : List Nat) (j : Nat) :
    (xs ++ ys).getD (xs.length + j) 0 = ys.getD j 0 := by
  rw [List.getD_append_right _ _ _ _ (Nat.le_add_right _ _)]
  congr 1
  omega

theorem readU64_of_agree (m : Nat → Nat) (off n : Nat) (rest : List Nat)
    (h : ∀ j, m (off + j) = (u64le n ++ rest).getD j 0) (hn : n < 2 ^ 64) :
    readU64 m off = n := by
  have hlist : (List.range 8).map (fun i => m (off + i)) = u64le n := by
    apply List.ext_get
    · simp [u64le_length]
    · intro k h1 h2
      simp only [List.get_eq_getElem, List.getElem_map, List.getElem_range]
      rw [h k, List.getD_append _ _ _ _ h2, List.getD_eq_getElem _ _ h2]
  rw [readU64, hlist, u64le, readLE_leBytes]
  have h256 : (256 : Nat) ^ 8 = 2 ^ 64 := by norm_num
  rw [h256]
  exact Nat.mod_eq_of_lt hn

theorem readBytes_of_agree (m : Nat → Nat) (off : Nat) (L rest : List Nat)
    (h : ∀ j, m (off + j) = (L ++ rest).getD j 0) :
    readBytes m off L.length = L := by
  apply List.ext_get
  · simp [readBytes]
  · intro k h1 h2
    simp only [readBytes, List.get_eq_getElem, List.getElem_map, List.getElem_range]
    rw [h k, List.getD_append _ _ _ _ h2, List.getD_eq_getElem _ _ h2]

/-- Bytes of the buffer from record `i` onward: remaining records, then the
instruction length, instruction bytes and program id. -/
def tailFrom (b : Buffer) (i : Nat) : List Nat :=
  ((b.recs.drop i).map serializeRec).flatten
    ++ u64le b.instr.length ++ b.instr ++ b.progId

theorem flatten_map_length (l : List WireRec) (h : ∀ r ∈ l, primWF r) :
    ((l.map serializeRec).flatten).length = (l.map recSize).sum := by
  induction l with
  | nil => rfl
  | cons r l ih =>
    simp only [List.map_cons, List.flatten_cons, List.length_append, List.sum_cons]
    rw [serializeRec_length r (h r (List.mem_cons_self r l)),
      ih (fun x hx => h x (List.mem_cons_of_mem r hx))]

theorem tailFrom_succ (b : Buffer) (i : Nat) (hi : i < b.recs.length) :
    tailFrom b i = serializeRec (b.recs.getD i default) ++ tailFrom b (i + 1) := by
  unfold tailFrom
  rw [List.drop_eq_getElem_cons hi, List.map_cons, List.flatten_cons,
    List.getD_eq_getElem _ _ hi]
  simp only [List.append_assoc]

theorem mem_tail (b : Buffer) (hp : ∀ r ∈ b.recs, primWF r) (i : Nat)
    (hi : i ≤ b.recs.length) (j : Nat) :
    memOf b (offs b.recs i + j) = (tailFrom b i).getD j 0 := by
  have h1 : (b.recs.map serializeRec).flatten
      = ((b.recs.take i).map serializeRec).flatten
        ++ ((b.recs.drop i).map serializeRec).flatten := by
    rw [← List.flatten_append, ← List.map_append, List.take_append_drop]
  have hlen : ((b.recs.take i).map serializeRec).flatten.length
      = ((b.recs.take i).map recSize).sum :=
    flatten_map_length _ (fun r hr => hp r (List.mem_of_mem_take hr))
  have e1 : serialize b
      = (u64le b.recs.length ++ ((b.recs.take i).map serializeRec).flatten)
        ++ tailFrom b i := by
    unfold serialize tailFrom
    rw [h1]
    simp only [List.append_assoc]
  have hidx : offs b.recs i + j
      = (u64le b.recs.length ++ ((b.recs.take i).map serializeRec).flatten).length + j := by
    unfold offs
    rw [List.length_append, u64le_length, hlen]
  unfold memOf
  rw [e1, hidx, getD_chunk]

/-- First 80 bytes of a primary record: marker, flags, reserved bytes,
address, owner and balance. -/
def primHeader (a : PrimAcct) : List Nat :=
  [255, a.signer, a.writable, a.exec] ++ List.replicate 4 0 ++ a.addr ++ a.owner
    ++ u64le a.lamports

/-- Bytes of a primary record after its data-length field. -/
def primRest (a : PrimAcct) : List Nat :=
  a.data ++ List.replicate 10240 0
    ++ List.replicate ((8 - a.data.length % 8) % 8) 0 ++ u64le a.rentEpoch

theorem primHeader_length (a : PrimAcct) (h1 : a.addr.length = 32)
    (h2 : a.owner.length = 32) : (primHeader a).length = 80 := by
  simp only [primHeader, List.length_append, List.length_cons, List.length_nil,
    List.length_replicate, u64le_length, h1, h2]

theorem serializeRec_primary_split (a : PrimAcct) :
    serializeRec (.primary a) = primHeader a ++ (u64le a.data.length ++ primRest a) := by
  simp only [serializeRec, primHeader, primRest, List.append_assoc]

theorem mem_head_byte (b : Buffer) (hp : ∀ r ∈ b.recs, primWF r) (i : Nat)
    (hi : i < b.recs.length) :
    memOf b (offs b.recs i) = (serializeRec (b.recs.getD i default)).getD 0 0 := by
  have hne : 0 < (serializeRec (b.recs.getD i default)).length := by
    cases b.recs.getD i default with
    | primary a =>
      rw [serializeRec_primary_split]
      simp only [List.length_append, primHeader, List.length_cons, List.length_nil]
      omega
    | dup idx => simp [serializeRec]
  have ht := mem_tail b hp i (le_of_lt hi) 0
  rw [Nat.add_zero] at ht
  rw [ht, tailFrom_succ b i hi, List.getD_append _ _ _ _ hne]

theorem mem_datalen_agree (b : Buffer) (hp : ∀ r ∈ b.recs, primWF r) (i : Nat)
    (hi : i < b.recs.length) (a : PrimAcct)
    (hr : b.recs.getD i default = .primary a) (h1 : a.addr.length = 32)
    (h2 : a.owner.length = 32) :
    ∀ j, memOf b ((offs b.recs i + 80) + j)
      = (u64le a.data.length ++ (primRest a ++ tailFrom b (i + 1))).getD j 0 := by
  intro j
  rw [Nat.add_assoc]
  rw [mem_tail b hp i (le_of_lt hi) (80 + j), tailFrom_succ b i hi, hr,
    serializeRec_primary_split, List.append_assoc]
  rw [show (80 : Nat) + j = (primHeader a).length + j by rw [primHeader_length a h1 h2]]
  rw [getD_chunk, List.append_assoc]

theorem primWF_at (b : Buffer) (hp : ∀ r ∈ b.recs, primWF r) (i : Nat)
    (hi : i < b.recs.length) : primWF (b.recs.getD i default) := by
  apply hp
  rw [List.getD_eq_getElem _ _ hi]
  exact List.getElem_mem _

theorem step_at (b : Buffer) (hWF : bufWF b) (i : Nat) (hi : i < b.recs.length) :
    step (memOf b) ⟨offs b.recs i, specViews b.recs i⟩
      = ⟨offs b.recs (i + 1), specViews b.recs (i + 1)⟩ := by
  obtain ⟨hle, hil, hpg, hp, hdup, hfirst⟩ := hWF
  cases hr : b.recs.getD i default with
  | dup idx =>
    have hd := hdup i hi
    rw [hr] at hd
    simp only [dupWF] at hd
    have hhead : memOf b (offs b.recs i) = idx := by
      rw [mem_head_byte b hp i hi, hr]
      rfl
    simp only [step, hhead]
    rw [if_pos (by omega : idx ≠ 255)]
    simp only [PState.mk.injEq]
    constructor
    · rw [offs_succ _ _ hi, hr]
      simp [recSize]
    · simp only [specViews, hr]
  | primary a =>
    have hpa := primWF_at b hp i hi
    rw [hr] at hpa
    simp only [primWF] at hpa
    obtain ⟨h1, h2, h3⟩ := hpa
    have hhead : memOf b (offs b.recs i) = 255 := by
      rw [mem_head_byte b hp i hi, hr, serializeRec_primary_split]
      rw [List.getD_append _ _ _ _ (show 0 < (primHeader a).length by
        simp only [primHeader, List.length_append, List.length_cons, List.length_nil]
        omega)]
      rfl
    have hread : readU64 (memOf b) (offs b.recs i + 80) = a.data.length :=
      readU64_of_agree _ _ _ _ (mem_datalen_agree b hp i hi a hr h1 h2) h3
    simp only [step, hhead]
    rw [if_neg (by omega : ¬(255 : Nat) ≠ 255)]
    simp only [PState.mk.injEq]
    constructor
    · rw [hread, offs_succ _ _ hi, hr, align8_eq]
      have hm := offs_mod8 b.recs i
      simp only [recSize]
      omega
    · simp only [specViews, hr]

theorem skip_at (b : Buffer) (hWF : bufWF b) (i : Nat) (hi : i < b.recs.length)
    (vs : List Nat) :
    skipStep (memOf b) ⟨offs b.recs i, vs⟩ = ⟨offs b.recs (i + 1), vs⟩ := by
  obtain ⟨hle, hil, hpg, hp, hdup, hfirst⟩ := hWF
  cases hr : b.recs.getD i default with
  | dup idx =>
    have hd := hdup i hi
    rw [hr] at hd
    simp only [dupWF] at hd
    have hhead : memOf b (offs b.recs i) = idx := by
      rw [mem_head_byte b hp i hi, hr]
      rfl
    simp only [skipStep, hhead]
    rw [if_pos (by omega : idx ≠ 255)]
    simp only [PState.mk.injEq]
    refine ⟨?_, by trivial⟩
    rw [offs_succ _ _ hi, hr]
    simp [recSize]
  | primary a =>
    have hpa := primWF_at b hp i hi
    rw [hr] at hpa
    simp only [primWF] at hpa
    obtain ⟨h1, h2, h3⟩ := hpa
    have hhead : memOf b (offs b.recs i) = 255 := by
      rw [mem_head_byte b hp i hi, hr, serializeRec_primary_split]
      rw [List.getD_append _ _ _ _ (show 0 < (primHeader a).length by
        simp only [primHeader, List.length_append, List.length_cons, List.length_nil]
        omega)]
      rfl
    have hread : readU64 (memOf b) (offs b.recs i + 80) = a.data.length :=
      readU64_of_agree _ _ _ _ (mem_datalen_agree b hp i hi a hr h1 h2) h3
    simp only [skipStep, hhead]
    rw [if_neg (by omega : ¬(255 : Nat) ≠ 255)]
    simp only [PState.mk.injEq]
    refine ⟨?_, by trivial⟩
    rw [hread, offs_succ _ _ hi, hr, align8_eq]
    have hm := offs_mod8 b.recs i
    simp only [recSize]
    omega

theorem iter_add (f : PState → PState) (a b : Nat) (s : PState) :
    iter f (a + b) s = iter f a (iter f b s) := by
  induction b generalizing s with
  | zero => rfl
  | succ b ih =>
    have h1 : a + (b + 1) = (a + b) + 1 := rfl
    rw [h1]
    show iter f (a + b) (f s) = iter f a (iter f b (f s))
    exact ih (f s)

theorem iter_step_walk (b : Buffer) (hWF : bufWF b) (k i : Nat)
    (hik : i + k ≤ b.recs.length) :
    iter (step (memOf b)) k ⟨offs b.recs i, specViews b.recs i⟩
      = ⟨offs b.recs (i + k), specViews b.recs (i + k)⟩ := by
  induction k generalizing i with
  | zero => rfl
  | succ k ih =>
    show iter (step (memOf b)) k (step (memOf b) ⟨offs b.recs i, specViews b.recs i⟩) = _
    rw [step_at b hWF i (by omega), ih (i + 1) (by omega)]
    have he : i + 1 + k = i + (k + 1) := by omega
    rw [he]

theorem iter_skip_walk (b : Buffer) (hWF : bufWF b) (vs : List Nat) (k i : Nat)
    (hik : i + k ≤ b.recs.length) :
    iter (skipStep (memOf b)) k ⟨offs b.recs i, vs⟩ = ⟨offs b.recs (i + k), vs⟩ := by
  induction k generalizing i with
  | zero => rfl
  | succ k ih =>
    show iter (skipStep (memOf b)) k (skipStep (memOf b) ⟨offs b.recs i, vs⟩) = _
    rw [skip_at b hWF i (by omega), ih (i + 1) (by omega)]
    have he : i + 1 + k = i + (k + 1) := by omega
    rw [he]

theorem batchLoop_eq_iter (m : Nat → Nat) :
    ∀ t s, 1 ≤ t → batchLoop m t s = some (iter (step m) (t - 1) s) := by
  intro t
  induction t using Nat.strong_induction_on with
  | _ t ih =>
    intro s ht
    match t, ht with
    | 1, _ => rfl
    | 2, _ => rfl
    | 3, _ => rfl
    | 4, _ => rfl
    | 5, _ => rfl
    | (u + 6), _ =>
      have hstep : batchLoop m (u + 6) s = batchLoop m (u + 1) (iter (step m) 5 s) := rfl
      rw [hstep, ih (u + 1) (by omega) _ (by omega)]
      have h2 : u + 1 - 1 = u := by omega
      have h1 : u + 6 - 1 = u + 5 := by omega
      rw [h1, h2, iter_add (step m) u 5 s]

theorem read_count (b : Buffer) (hle : b.recs.length ≤ 254) :
    readU64 (memOf b) 0 = b.recs.length := by
  apply readU64_of_agree (memOf b) 0 b.recs.length
    ((b.recs.map serializeRec).flatten
      ++ (u64le b.instr.length ++ (b.instr ++ b.progId)))
  · intro j
    show (serialize b).getD (0 + j) 0 = _
    rw [Nat.zero_add]
    simp only [serialize, List.append_assoc]
  · have h64 : (2 : Nat) ^ 64 = 18446744073709551616 := by norm_num
    omega

theorem mem_first_byte (b : Buffer) (hWF : bufWF b) (h0 : 0 < b.recs.length) :
    memOf b 8 = 255 := by
  obtain ⟨hle, hil, hpg, hp, hdup, hfirst⟩ := hWF
  have hf := hfirst h0
  cases hr : b.recs.getD 0 default with
  | dup idx =>
    rw [hr] at hf
    simp [isPrim] at hf
  | primary a =>
    have hm := mem_head_byte b hp 0 h0
    rw [offs_zero] at hm
    rw [hm, hr, serializeRec_primary_split]
    rw [List.getD_append _ _ _ _ (show 0 < (primHeader a).length by
      simp only [primHeader, List.length_append, List.length_cons, List.length_nil]
      omega)]
    rfl

theorem finish_at_end (b : Buffer) (hWF : bufWF b) (vs : List Nat) (n : Nat) :
    finish (memOf b) ⟨offs b.recs b.recs.length, vs⟩ n
      = { progId := b.progId, count := n, views := vs, instr := b.instr,
          instrOffset := offs b.recs b.recs.length } := by
  obtain ⟨hle, hil, hpg, hp, hdup, hfirst⟩ := hWF
  have htail : tailFrom b b.recs.length
      = u64le b.instr.length ++ (b.instr ++ b.progId) := by
    unfold tailFrom
    rw [List.drop_length]
    simp only [List.map_nil, List.flatten_nil, List.nil_append, List.append_assoc]
  have hagree : ∀ j, memOf b (offs b.recs b.recs.length + j)
      = (u64le b.instr.length ++ (b.instr ++ b.progId)).getD j 0 := by
    intro j
    rw [mem_tail b hp b.recs.length (le_refl _) j, htail]
  have hilen : readU64 (memOf b) (offs b.recs b.recs.length) = b.instr.length :=
    readU64_of_agree _ _ _ _ hagree hil
  have hinstr_agree : ∀ j, memOf b ((offs b.recs b.recs.length + 8) + j)
      = (b.instr ++ b.progId).getD j 0 := by
    intro j
    rw [Nat.add_assoc, hagree (8 + j)]
    rw [show (8 : Nat) + j = (u64le b.instr.length).length + j by rw [u64le_length]]
    rw [getD_chunk]
  have hinstr : readBytes (memOf b) (offs b.recs b.recs.length + 8) b.instr.length
      = b.instr :=
    readBytes_of_agree _ _ _ _ hinstr_agree
  have hpid_agree : ∀ j, memOf b ((offs b.recs b.recs.length + 8 + b.instr.length) + j)
      = (b.progId ++ []).getD j 0 := by
    intro j
    rw [List.append_nil]
    have he : (offs b.recs b.recs.length + 8 + b.instr.length) + j
        = (offs b.recs b.recs.length + 8) + (b.instr.length + j) := by omega
    rw [he, hinstr_agree (b.instr.length + j), getD_chunk]
  have hpid : readBytes (memOf b) (offs b.recs b.recs.length + 8 + b.instr.length)
      b.progId.length = b.progId :=
    readBytes_of_agree _ _ _ _ hpid_agree
  unfold finish
  dsimp only
  rw [hilen, hinstr, ← hpg, hpid]

theorem iter_step_from_start (b : Buffer) (hWF : bufWF b) (k : Nat)
    (hk : k ≤ b.recs.length) :
    iter (step (memOf b)) k ⟨8, []⟩ = ⟨offs b.recs k, specViews b.recs k⟩ := by
  have h := iter_step_walk b hWF k 0 (by omega)
  rw [Nat.zero_add] at h
  exact h

theorem deserializeNaive_spec (b : Buffer) (hWF : bufWF b) (MAX : Nat) (hM : 1 ≤ MAX) :
    deserializeNaive MAX (memOf b)
      = { progId := b.progId, count := min b.recs.length MAX,
          views := specViews b.recs (min b.recs.length MAX),
          instr := b.instr, instrOffset := offs b.recs b.recs.length } := by
  have hle := hWF.1
  have hcount := read_count b hle
  unfold deserializeNaive
  dsimp only
  rw [hcount]
  rw [iter_step_from_start b hWF (min b.recs.length MAX) (Nat.min_le_left _ _)]
  have hskip := iter_skip_walk b hWF (specViews b.recs (min b.recs.length MAX))
    (b.recs.length - min b.recs.length MAX) (min b.recs.length MAX)
    (by have := Nat.min_le_left b.recs.length MAX; omega)
  rw [show min b.recs.length MAX + (b.recs.length - min b.recs.length MAX)
      = b.recs.length by
    have := Nat.min_le_left b.recs.length MAX
    omega] at hskip
  rw [hskip]
  exact finish_at_end b hWF _ _

set_option maxHeartbeats 1000000 in
theorem deserialize_eq_naive (b : Buffer) (hWF : bufWF b) (MAX : Nat) (hM : 1 ≤ MAX) :
    deserialize MAX (memOf b) = some (deserializeNaive MAX (memOf b)) := by
  have hle := hWF.1
  have hcount := read_count b hle
  unfold deserialize deserializeNaive
  dsimp only
  rw [hcount]
  by_cases h0 : b.recs.length = 0
  · rw [if_pos h0, h0, Nat.zero_min, Nat.sub_self]
    rfl
  · rw [if_neg h0]
    have h0' : 0 < b.recs.length := Nat.pos_of_ne_zero h0
    have hm8 := mem_first_byte b hWF h0'
    have hstep0 : step (memOf b) ⟨8, []⟩
        = ⟨align8 (8 + 8 + 10328 + readU64 (memOf b) (8 + 80)), [8]⟩ := by
      simp only [step, hm8]
      rw [if_neg (by omega : ¬(255 : Nat) ≠ 255)]
      rfl
    by_cases h1 : 1 < b.recs.length
    · rw [if_pos h1]
      have htpp : (if MAX < 254 then min b.recs.length MAX else b.recs.length)
          = min b.recs.length MAX := by
        by_cases hmx : MAX < 254
        · rw [if_pos hmx]
        · rw [if_neg hmx]
          omega
      rw [htpp]
      have hP1 : 1 ≤ min b.recs.length MAX := by omega
      have hbranch : ∀ s : PState,
          (if min b.recs.length MAX = 2 then some (step (memOf b) s)
            else batchLoop (memOf b) (min b.recs.length MAX) s)
          = some (iter (step (memOf b)) (min b.recs.length MAX - 1) s) := by
        intro s
        by_cases h2 : min b.recs.length MAX = 2
        · rw [if_pos h2, h2]
          rfl
        · rw [if_neg h2]
          exact batchLoop_eq_iter (memOf b) (min b.recs.length MAX) s hP1
      rw [hbranch]
      have hs1 : iter (step (memOf b)) (min b.recs.length MAX - 1)
          (⟨align8 (8 + 8 + 10328 + readU64 (memOf b) (8 + 80)), [8]⟩ : PState)
          = iter (step (memOf b)) (min b.recs.length MAX) ⟨8, []⟩ := by
        rw [← hstep0]
        conv_rhs => rw [show min b.recs.length MAX = (min b.recs.length MAX - 1) + 1
          by omega]
        rfl
      rw [hs1]
      dsimp only
      by_cases hmx : MAX < 254
      · rw [if_pos hmx]
      · rw [if_neg hmx]
        have hPlen : min b.recs.length MAX = b.recs.length := by omega
        rw [hPlen, Nat.sub_self]
        rfl
    · rw [if_neg h1]
      have hmin1 : min b.recs.length MAX = 1 := by omega
      rw [hmin1]
      rw [show b.recs.length = 1 by omega]
      rw [← hstep0]
      rfl

theorem deserialize_spec (b : Buffer) (hWF : bufWF b) (MAX : Nat) (hM : 1 ≤ MAX) :
    deserialize MAX (memOf b)
      = some { progId := b.progId, count := min b.recs.length MAX,
               views := specViews b.recs (min b.recs.length MAX),
               instr := b.instr, instrOffset := offs b.recs b.recs.length } := by
  rw [deserialize_eq_naive b hWF MAX hM, deserializeNaive_spec b hWF MAX hM]

theorem specViews_length (recs : List WireRec) (n : Nat) :
    (specViews recs n).length = n := by
  induction n with
  | zero => rfl
  | succ n ih => simp [specViews, List.length_append, ih]

/-- C6: on a conformant buffer declaring more accounts than the configured
maximum, `deserialize` materializes exactly `maxAccounts` Account Views,
walks the excess records without error (the parse completes with `some`),
and reads the instruction data and program id from their correct wire
positions — the instruction-length offset equals the layout offset past all
declared records. -/
theorem deserialize_excess_accounts (b : Buffer) (MAX : Nat) (hWF : bufWF b)
    (hM : 1 ≤ MAX) (hgt : MAX < b.recs.length) :
    deserialize MAX (memOf b)
      = some { progId := b.progId, count := MAX,
               views := specViews b.recs MAX,
               instr := b.instr,
               instrOffset := 8 + (b.recs.map recSize).sum } ∧
    (specViews b.recs MAX).length = MAX := by
  have h := deserialize_spec b hWF MAX hM
  have hmin : min b.recs.length MAX = MAX := by omega
  have hoffs : offs b.recs b.recs.length = 8 + (b.recs.map recSize).sum := by
    unfold offs
    rw [List.take_length]
  rw [hmin, hoffs] at h
  exact ⟨h, specViews_length _ _⟩

def c6buf : Buffer :=
  ⟨[.primary ⟨0, 0, 0, List.replicate 32 0, List.replicate 32 0, 0, [], 0⟩, .dup 0],
   [7], List.replicate 32 9⟩

theorem deserialize_excess_accounts_witness :
    bufWF c6buf ∧ 1 ≤ 1 ∧ 1 < c6buf.recs.length ∧
    (deserialize 1 (memOf c6buf)
      = some { progId := c6buf.progId, count := 1,
               views := specViews c6buf.recs 1,
               instr := c6buf.instr,
               instrOffset := 8 + (c6buf.recs.map recSize).sum } ∧
     (specViews c6buf.recs 1).length = 1) :=
  ⟨by decide, by decide, by decide,
    deserialize_excess_accounts c6buf 1 (by decide) (by decide) (by decide)⟩

/-- C7: on a conformant buffer declaring at most the configured maximum,
`deserialize` initializes exactly `account_count` Account Views, and the
records materialized from primaries plus those resolved from duplicate
markers add up to the declared count. -/
theorem deserialize_duplicate_accounting (b : Buffer) (MAX : Nat) (hWF : bufWF b)
    (hM : 1 ≤ MAX) (hcap : b.recs.length ≤ MAX) :
    deserialize MAX (memOf b)
      = some { progId := b.progId, count := b.recs.length,
               views := specViews b.recs b.recs.length,
               instr := b.instr, instrOffset := offs b.recs b.recs.length } ∧
    (specViews b.recs b.recs.length).length = b.recs.length ∧
    b.recs.countP isPrim + b.recs.countP (fun r => !isPrim r) = b.recs.length := by
  have h := deserialize_spec b hWF MAX hM
  have hmin : min b.recs.length MAX = b.recs.length := by omega
  rw [hmin] at h
  refine ⟨h, specViews_length _ _, ?_⟩
  have hc := (List.length_eq_countP_add_countP isPrim b.recs).symm
  have heq : (fun r => !isPrim r) = (fun a => decide (¬isPrim a = true)) := by
    funext r
    cases h : isPrim r <;> simp [h]
  rw [heq]
  exact hc

def c7buf : Buffer :=
  ⟨[.primary ⟨1, 0, 0, List.replicate 32 2, List.replicate 32 3, 5, [4, 4], 0⟩,
    .dup 0,
    .primary ⟨0, 1, 0, List.replicate 32 6, List.replicate 32 3, 9, [], 0⟩],
   [1, 2, 3], List.replicate 32 9⟩

theorem deserialize_duplicate_accounting_witness :
    bufWF c7buf ∧ 1 ≤ 8 ∧ c7buf.recs.length ≤ 8 ∧
    (deserialize 8 (memOf c7buf)
      = some { progId := c7buf.progId, count := c7buf.recs.length,
               views := specViews c7buf.recs c7buf.recs.length,
               instr := c7buf.instr,
               instrOffset := offs c7buf.recs c7buf.recs.length } ∧
     (specViews c7buf.recs c7buf.recs.length).length = c7buf.recs.length ∧
     c7buf.recs.countP isPrim + c7buf.recs.countP (fun r => !isPrim r)
       = c7buf.recs.length) :=
  ⟨by decide, by decide, by decide,
    deserialize_duplicate_accounting c7buf 8 (by decide) (by decide) (by decide)⟩

/-- C9: the batched account-processing path of `deserialize` (groups of
five, a tail switch for the 1–4 remainder, duplicates on the cold branch)
produces exactly the same program id, Account View array and
instruction-data slice as the naive one-account-at-a-time walk of the same
conformant buffer. -/
theorem deserialize_batched_refines_naive (b : Buffer) (MAX : Nat) (hWF : bufWF b)
    (hM : 1 ≤ MAX) :
    deserialize MAX (memOf b) = some (deserializeNaive MAX (memOf b)) ∧
    (deserializeNaive MAX (memOf b)).progId = b.progId ∧
    (deserializeNaive MAX (memOf b)).instr = b.instr ∧
    (deserializeNaive MAX (memOf b)).views
      = specViews b.recs (min b.recs.length MAX) := by
  have h1 := deserialize_eq_naive b hWF MAX hM
  have h2 := deserializeNaive_spec b hWF MAX hM
  exact ⟨h1, by rw [h2], by rw [h2], by rw [h2]⟩

def c9buf : Buffer :=
  ⟨[.primary ⟨1, 1, 0, List.replicate 32 1, List.replicate 32 2, 3, [5], 0⟩,
    .dup 0,
    .primary ⟨0, 0, 1, List.replicate 32 4, List.replicate 32 2, 7, [6, 6, 6], 1⟩,
    .dup 2,
    .dup 0,
    .primary ⟨0, 0, 0, List.replicate 32 8, List.replicate 32 2, 0, [], 0⟩,
    .dup 5],
   [9, 9], List.replicate 32 1⟩

theorem deserialize_batched_refines_naive_witness :
    bufWF c9buf ∧ 1 ≤ 10 ∧
    (deserialize 10 (memOf c9buf) = some (deserializeNaive 10 (memOf c9buf)) ∧
     (deserializeNaive 10 (memOf c9buf)).progId = c9buf.progId ∧
     (deserializeNaive 10 (memOf c9buf)).instr = c9buf.instr ∧
     (deserializeNaive 10 (memOf c9buf)).views
       = specViews c9buf.recs (min c9buf.recs.length 10)) :=
  ⟨by decide, by decide,
    deserialize_batched_refines_naive c9buf 10 (by decide) (by decide)⟩

/-- Modelled from the spec: `try_borrow` on the Borrow State cell of the
view at buffer offset `v` — fails only when that cell holds Exclusive,
otherwise increments the Shared count.  Cells are keyed by the record
offset, because every Account View of one physical account points at the
same record (a duplicate is a struct copy of the view, never of the cell). -/
def tryBorrowShared (σ : Nat → BorrowState) (v : Nat) :
    Except ProgramError (Nat → BorrowState) :=
  match σ v with
  | .exclusive => .error .accountBorrowFailed
  | .unborrowed => .ok (fun j => if j = v then .shared 1 else σ j)
  | .shared n => .ok (fun j => if j = v then .shared (n + 1) else σ j)

/-- Modelled from the spec: `try_borrow_mut` on the Borrow State cell of the
view at buffer offset `v` — fails when any Shared or Exclusive borrow is
outstanding. -/
def tryBorrowMutView (σ : Nat → BorrowState) (v : Nat) :
    Except ProgramError (Nat → BorrowState) :=
  match σ v with
  | .unborrowed => .ok (fun j => if j = v then .exclusive else σ j)
  | _ => .error .accountBorrowFailed

/-- Modelled from the spec: dropping the exclusive RAII guard reverses the
transition, returning the cell to Unborrowed. -/
def dropBorrowMut (σ : Nat → BorrowState) (v : Nat) : Nat → BorrowState :=
  fun j => if j = v then .unborrowed else σ j

/-- Borrow map before the scenario: nothing is borrowed. -/
def sigma0 : Nat → BorrowState := fun _ => .unborrowed

/-- Borrow map while the exclusive guard on the view at offset 8 is held. -/
def sigma1 : Nat → BorrowState := fun j => if j = 8 then .exclusive else sigma0 j

/-- Buffer of the concrete duplicate scenario: `account_count = 2`, record 1
a duplicate marker holding index 0. -/
def c3buf : Buffer :=
  ⟨[.primary ⟨0, 0, 0, List.replicate 32 0, List.replicate 32 0, 0, [], 0⟩, .dup 0],
   [], List.replicate 32 0⟩

/-- C3: parsing a conformant buffer with `account_count = 2` whose record 1
is a duplicate marker holding index 0 yields two Account Views referencing
the same record offset — hence the same Borrow State cell; while the
exclusive borrow of view 0 is held, both `try_borrow` and `try_borrow_mut`
on view 1 fail with the borrow conflict error; after the guard is dropped,
a borrow of view 1 succeeds. -/
theorem duplicate_shares_borrow_cell :
    (deserialize 8 (memOf c3buf)
      = some { progId := c3buf.progId, count := 2, views := [8, 8],
               instr := c3buf.instr, instrOffset := offs c3buf.recs 2 }) ∧
    tryBorrowMutView sigma0 8 = .ok sigma1 ∧
    tryBorrowShared sigma1 8 = .error .accountBorrowFailed ∧
    tryBorrowMutView sigma1 8 = .error .accountBorrowFailed ∧
    tryBorrowShared (dropBorrowMut sigma1 8) 8
      = .ok (fun j => if j = 8 then .shared 1 else dropBorrowMut sigma1 8 j) := by
  refine ⟨?_, rfl, rfl, rfl, rfl⟩
  have h := deserialize_spec c3buf (by decide) 8 (by decide)
  rw [h]
  decide

/-- Round `p` up to a multiple of the power-of-two alignment `a`; models
`(pos + align - 1) & !(align - 1)`. -/
def alignMask (p a : Nat) : Nat := (p + a - 1) - (p + a - 1) % a

/-- Translation of `BumpAllocator` (crates/entrypoint/src/lib.rs): the
configured bounds of the heap region.  The current-offset word stored at
`start` is passed explicitly as `pos`. -/
structure BumpAllocator where
  start : Nat
  end_ : Nat
deriving DecidableEq

/-- Translation of `BumpAllocator::alloc`: a zero stored offset means first
use, so the cursor starts past the offset word itself; the allocation
address is the cursor aligned up; a size above `MAX_HEAP_LENGTH` or an end
past the region returns the null sentinel leaving the stored word
untouched, otherwise the word advances to `allocation + size`. -/
def BumpAllocator.alloc (al : BumpAllocator) (pos size align : Nat) :
    Option Nat × Nat :=
  let p := if pos = 0 then al.start + 8 else pos
  let allocation := alignMask p align
  if MAX_HEAP_LENGTH < size ∨ al.end_ < allocation + size then (none, pos)
  else (some allocation, allocation + size)

/-- Run a sequence of (size, align) allocation requests, threading the
stored offset word, collecting the returned addresses. -/
def runAllocs (al : BumpAllocator) : List (Nat × Nat) → Nat → List (Option Nat) × Nat
  | [], pos => ([], pos)
  | r :: rest, pos =>
    let out := al.alloc pos r.1 r.2
    let rec2 := runAllocs al rest out.2
    (out.1 :: rec2.1, rec2.2)

theorem alignMask_ge (p a : Nat) (ha : 1 ≤ a) : p ≤ alignMask p a := by
  unfold alignMask
  have := Nat.mod_lt (p + a - 1) (show 0 < a by omega)
  omega

theorem alloc_cases (al : BumpAllocator) (pos size align : Nat) (ha : 1 ≤ align) :
    al.alloc pos size align = (none, pos) ∨
    (∃ addr, al.alloc pos size align = (some addr, addr + size) ∧ pos ≤ addr ∧
      addr + size ≤ al.end_) := by
  unfold BumpAllocator.alloc
  dsimp only
  by_cases hc : MAX_HEAP_LENGTH < size ∨
      al.end_ < alignMask (if pos = 0 then al.start + 8 else pos) align + size
  · left
    rw [if_pos hc]
  · right
    refine ⟨alignMask (if pos = 0 then al.start + 8 else pos) align, by rw [if_neg hc],
      ?_, ?_⟩
    · have h1 := alignMask_ge (if pos = 0 then al.start + 8 else pos) align ha
      have h2 : pos ≤ (if pos = 0 then al.start + 8 else pos) := by
        by_cases h0 : pos = 0
        · rw [if_pos h0]
          omega
        · rw [if_neg h0]
      omega
    · push_neg at hc
      omega

theorem alloc_le_end (al : BumpAllocator) (pos size align : Nat) (h : pos ≤ al.end_) :
    (al.alloc pos size align).2 ≤ al.end_ := by
  unfold BumpAllocator.alloc
  dsimp only
  by_cases hc : MAX_HEAP_LENGTH < size ∨
      al.end_ < alignMask (if pos = 0 then al.start + 8 else pos) align + size
  · rw [if_pos hc]
    exact h
  · rw [if_neg hc]
    push_neg at hc
    omega

theorem runAllocs_le_end (al : BumpAllocator) (reqs : List (Nat × Nat)) (pos : Nat)
    (h : pos ≤ al.end_) : (runAllocs al reqs pos).2 ≤ al.end_ := by
  induction reqs generalizing pos with
  | nil => exact h
  | cons r rest ih =>
    simp only [runAllocs]
    exact ih _ (alloc_le_end al pos r.1 r.2 h)

theorem runAllocs_chain (al : BumpAllocator) (reqs : List (Nat × Nat)) (pos : Nat)
    (hal : ∀ r ∈ reqs, 1 ≤ r.2) :
    List.Chain' (· ≤ ·) ((runAllocs al reqs pos).1.filterMap id) ∧
    (∀ x ∈ (runAllocs al reqs pos).1.filterMap id, pos ≤ x) := by
  induction reqs generalizing pos with
  | nil =>
    constructor
    · simp [runAllocs]
    · intro x hx
      simp [runAllocs] at hx
  | cons r rest ih =>
    have ha := hal r (List.mem_cons_self r rest)
    rcases alloc_cases al pos r.1 r.2 ha with hfail | ⟨addr, hsucc, hge, hend⟩
    · simp only [runAllocs, hfail]
      have ih2 := ih pos (fun x hx => hal x (List.mem_cons_of_mem r hx))
      simpa [List.filterMap_cons] using ih2
    · simp only [runAllocs, hsucc]
      have ih2 := ih (addr + r.1) (fun x hx => hal x (List.mem_cons_of_mem r hx))
      simp only [List.filterMap_cons, id]
      constructor
      · rw [List.chain'_cons']
        refine ⟨?_, ih2.1⟩
        intro y hy
        have hmem : y ∈ ((runAllocs al rest (addr + r.1)).1.filterMap id) :=
          List.mem_of_mem_head? hy
        have := ih2.2 y hmem
        omega
      · intro x hx
        rcases List.mem_cons.mp hx with hx1 | hx2
        · omega
        · have := ih2.2 x hx2
          omega

/-- C8: over any sequence of allocations with non-zero sizes and non-trivial
alignments, the addresses returned by `BumpAllocator::alloc` are
non-decreasing; the stored current-offset word never exceeds the configured
region end; and a request whose size exceeds `MAX_HEAP_LENGTH` or whose
aligned offset plus size overruns the region end returns the null sentinel
and leaves the stored offset word unchanged. -/
theorem bumpAlloc_monotone_bounded (al : BumpAllocator) (reqs : List (Nat × Nat))
    (hsz : ∀ r ∈ reqs, 1 ≤ r.1) (hal : ∀ r ∈ reqs, 1 ≤ r.2) :
    List.Chain' (· ≤ ·) ((runAllocs al reqs 0).1.filterMap id) ∧
    (runAllocs al reqs 0).2 ≤ al.end_ ∧
    (∀ pos size align, pos ≤ al.end_ → (al.alloc pos size align).2 ≤ al.end_) ∧
    (∀ pos size align,
      (MAX_HEAP_LENGTH < size ∨
        al.end_ < alignMask (if pos = 0 then al.start + 8 else pos) align + size) →
      al.alloc pos size align = (none, pos)) := by
  refine ⟨(runAllocs_chain al reqs 0 hal).1, runAllocs_le_end al reqs 0 (Nat.zero_le _),
    fun pos size align h => alloc_le_end al pos size align h, ?_⟩
  intro pos size align hc
  unfold BumpAllocator.alloc
  dsimp only
  rw [if_pos hc]

theorem bumpAlloc_monotone_bounded_witness :
    (∀ r ∈ [((16 : Nat), (8 : Nat)), (100, 8), (8, 8)], 1 ≤ r.1) ∧
    (∀ r ∈ [((16 : Nat), (8 : Nat)), (100, 8), (8, 8)], 1 ≤ r.2) ∧
    List.Chain' (· ≤ ·)
      ((runAllocs ⟨1000, 1100⟩ [(16, 8), (100, 8), (8, 8)] 0).1.filterMap id) ∧
    (runAllocs ⟨1000, 1100⟩ [(16, 8), (100, 8), (8, 8)] 0).2 ≤ 1100 ∧
    BumpAllocator.alloc ⟨1000, 1100⟩ 1024 100 8 = (none, 1024) := by
  have h := bumpAlloc_monotone_bounded ⟨1000, 1100⟩ [(16, 8), (100, 8), (8, 8)]
    (by decide) (by decide)
  exact ⟨by decide, by decide, h.1, h.2.1, h.2.2.2 1024 100 8 (by decide)⟩

/-- Translation of `InstructionContext` (crates/entrypoint/src/lib.rs): the
input-buffer read position and the number of remaining accounts. -/
structure InstructionContext where
  buffer : Nat
  remaining : Nat
deriving DecidableEq

/-- Translation of `InstructionContext::new_unchecked`: position past the
8-byte count, remaining initialized from the count word. -/
def InstructionContext.newUnchecked (m : Nat → Nat) : InstructionContext :=
  ⟨8, readU64 m 0⟩

/-- An account read lazily from the buffer: a view at its record offset, or
the index of the duplicated original. -/
inductive MaybeAccount
  | account (off : Nat)
  | duplicated (idx : Nat)
deriving DecidableEq

/-- Translation of `InstructionContext::read_account`: advance 8 bytes past
the marker slot; a non-duplicate additionally walks the static account
data, its data bytes, and aligns — returning the view; a duplicate returns
the stored index. -/
def readAccount (m : Nat → Nat) (c : InstructionContext) :
    MaybeAccount × InstructionContext :=
  let acc := c.buffer
  if m acc = 255 then
    (.account acc,
     { c with buffer := align8 (acc + 8 + 10328 + readU64 m (acc + 80)) })
  else (.duplicated (m acc), { c with buffer := acc + 8 })

/-- Translation of `InstructionContext::next_account`: a checked decrement
of the remaining count (`NotEnoughAccountKeys` when zero, state unchanged),
then the lazy account read. -/
def InstructionContext.nextAccount (c : InstructionContext) (m : Nat → Nat) :
    Except ProgramError MaybeAccount × InstructionContext :=
  if c.remaining = 0 then (.error .notEnoughAccountKeys, c)
  else
    let c1 : InstructionContext := { c with remaining := c.remaining - 1 }
    let out := readAccount m c1
    (.ok out.1, out.2)

/-- Translation of `InstructionContext::instruction_data`: refuses with
`InvalidInstructionData` while accounts remain, else reads the length-
prefixed instruction bytes at the current position. -/
def InstructionContext.instructionData (c : InstructionContext) (m : Nat → Nat) :
    Except ProgramError (List Nat) :=
  if 0 < c.remaining then .error .invalidInstructionData
  else .ok (readBytes m (c.buffer + 8) (readU64 m c.buffer))

/-- Translation of `InstructionContext::program_id`: refuses with
`InvalidInstructionData` while accounts remain, else reads the 32-byte
program id past the instruction data. -/
def InstructionContext.programId (c : InstructionContext) (m : Nat → Nat) :
    Except ProgramError (List Nat) :=
  if 0 < c.remaining then .error .invalidInstructionData
  else .ok (readBytes m (c.buffer + 8 + readU64 m c.buffer) 32)

/-- C10: `next_account` returns `NotEnoughAccountKeys` exactly when no
accounts remain, leaving the context unchanged at zero, and otherwise
decrements the remaining count by one and returns an account;
`instruction_data` and `program_id` return `InvalidInstructionData` exactly
when accounts remain (they take the context immutably, so it is unchanged). -/
theorem instructionContext_errors (m : Nat → Nat) (c : InstructionContext) :
    (c.nextAccount m
      = if c.remaining = 0 then (.error .notEnoughAccountKeys, c)
        else (.ok (readAccount m { c with remaining := c.remaining - 1 }).1,
              (readAccount m { c with remaining := c.remaining - 1 }).2)) ∧
    (c.remaining = 0 → (c.nextAccount m).2 = c) ∧
    (0 < c.remaining → (c.nextAccount m).2.remaining = c.remaining - 1) ∧
    ((c.instructionData m = .error .invalidInstructionData) ↔ 0 < c.remaining) ∧
    ((c.programId m = .error .invalidInstructionData) ↔ 0 < c.remaining) := by
  refine ⟨rfl, ?_, ?_, ?_, ?_⟩
  · intro h
    simp [InstructionContext.nextAccount, h]
  · intro h
    have hne : ¬c.remaining = 0 := by omega
    simp only [InstructionContext.nextAccount, if_neg hne]
    unfold readAccount
    dsimp only
    by_cases hb : m c.buffer = 255
    · rw [if_pos hb]
    · rw [if_neg hb]
  · by_cases h0 : 0 < c.remaining
    · simp [InstructionContext.instructionData, h0]
    · simp [InstructionContext.instructionData, h0]
  · by_cases h0 : 0 < c.remaining
    · simp [InstructionContext.programId, h0]
    · simp [InstructionContext.programId, h0]

theorem instructionContext_errors_witness :
    (InstructionContext.nextAccount ⟨8, 0⟩ (fun _ => 0)).2 = ⟨8, 0⟩ ∧
    (InstructionContext.nextAccount ⟨8, 2⟩ (fun _ => 0)).2.remaining = 1 ∧
    ((InstructionContext.instructionData ⟨8, 2⟩ (fun _ => 0))
      = .error .invalidInstructionData ↔ 0 < (2 : Nat)) :=
  ⟨(instructionContext_errors (fun _ => 0) ⟨8, 0⟩).2.1 rfl,
   (instructionContext_errors (fun _ => 0) ⟨8, 2⟩).2.2.1 (by decide),
   (instructionContext_errors (fun _ => 0) ⟨8, 2⟩).2.2.2.1⟩
